import Mathlib

/-!
Verification development for the topic-analysis extraction pipeline
(`topic_analysis/llm_client.py`, `topic_analysis/main.py`).

The Python source is shallowly embedded over `List Char`.  Each definition
mirrors one source function or statement block; comments cite the source
lines.  All definitions are structurally recursive (fuelled where the
source loop consumes a variable number of characters), so every concrete
instance evaluates by kernel reduction.
-/

/-- Whitespace class of Python's `str.strip()` and of `\s` in `re`
(ASCII range; the source only ever meets ASCII whitespace). -/
def isPySpace (c : Char) : Bool :=
  c = ' ' || c = '\t' || c = '\n' || c = '\r' || c = Char.ofNat 11 || c = Char.ofNat 12

/-- Whitespace accepted between tokens by Python's `json` decoder
(its WHITESPACE regex is `[ \t\n\r]*`). -/
def isJsonWs (c : Char) : Bool :=
  c = ' ' || c = '\t' || c = '\n' || c = '\r'

/-- The character `{` (written via its code point throughout). -/
def braceL : Char := Char.ofNat 123

/-- The character `}` (written via its code point throughout). -/
def braceR : Char := Char.ofNat 125

/-- The character `'` (written via its code point throughout). -/
def squote : Char := Char.ofNat 39

/-- Right-strip: removes the trailing run of Python whitespace
(second half of `str.strip()`). -/
def pyRStrip : List Char → List Char
  | [] => []
  | c :: rest =>
    let r := pyRStrip rest
    if r = [] ∧ isPySpace c then [] else c :: r

/-- Python's `str.strip()`: drop leading then trailing whitespace. -/
def pyStrip (l : List Char) : List Char :=
  pyRStrip (l.dropWhile isPySpace)

/-- Skip inter-token whitespace, as the `json` decoder does. -/
def skipWs (l : List Char) : List Char :=
  l.dropWhile isJsonWs

/-- Values produced by Python's `json.loads`.  Numbers keep their source
token; objects keep insertion order (duplicate keys are possible in the
list form; key membership below matches Python dict membership). -/
inductive Json where
  | null : Json
  | bool : Bool → Json
  | str : List Char → Json
  | num : List Char → Json
  | arr : List Json → Json
  | obj : List (List Char × Json) → Json

/-- Decoded value of a single JSON string escape character
(`\" \\ \/ \b \f \n \r \t`). -/
def escCharMap (c : Char) : Option Char :=
  if c = '\"' then some '\"'
  else if c = '\\' then some '\\'
  else if c = '/' then some '/'
  else if c = 'b' then some (Char.ofNat 8)
  else if c = 'f' then some (Char.ofNat 12)
  else if c = 'n' then some '\n'
  else if c = 'r' then some '\r'
  else if c = 't' then some '\t'
  else none

/-- Value of a hexadecimal digit, for `\uXXXX` escapes. -/
def hexVal (c : Char) : Option Nat :=
  if '0' ≤ c ∧ c ≤ '9' then some (c.toNat - '0'.toNat)
  else if 'a' ≤ c ∧ c ≤ 'f' then some (c.toNat - 'a'.toNat + 10)
  else if 'A' ≤ c ∧ c ≤ 'F' then some (c.toNat - 'A'.toNat + 10)
  else none

/-- Body of a JSON string after the opening quote, per Python's strict
decoder: unescaped control characters (code < 0x20) are rejected, the
escapes are the eight single-character ones plus `\uXXXX`.  Returns the
decoded characters and the input after the closing quote.  (Surrogate-pair
combination is not modelled; no concrete input below uses `\u`.) -/
def parseStringBody : List Char → Option (List Char × List Char)
  | [] => none
  | c :: rest =>
    if c = '\"' then some ([], rest)
    else if c = '\\' then
      match rest with
      | 'u' :: h1 :: h2 :: h3 :: h4 :: rest2 =>
        match hexVal h1, hexVal h2, hexVal h3, hexVal h4 with
        | some a, some b, some c3, some d =>
          (fun p => (Char.ofNat (((a * 16 + b) * 16 + c3) * 16 + d) :: p.1, p.2)) <$>
            parseStringBody rest2
        | _, _, _, _ => none
      | e :: rest2 =>
        match escCharMap e with
        | some d => (fun p => (d :: p.1, p.2)) <$> parseStringBody rest2
        | none => none
      | [] => none
    else if c.toNat < 32 then none
    else (fun p => (c :: p.1, p.2)) <$> parseStringBody rest

/-- Integer part of the JSON number regex `(?:0|[1-9]\d*)` (after an
optional sign), returning the matched digits and the rest. -/
def numIntPart : List Char → Option (List Char × List Char)
  | [] => none
  | d :: r =>
    if d = '0' then some ([d], r)
    else if d.isDigit then some (d :: r.takeWhile Char.isDigit, r.dropWhile Char.isDigit)
    else none

/-- Optional fraction part `(?:\.\d+)?` of the JSON number regex. -/
def numFracPart : List Char → List Char × List Char
  | '.' :: r =>
    if r.takeWhile Char.isDigit = [] then ([], '.' :: r)
    else ('.' :: r.takeWhile Char.isDigit, r.dropWhile Char.isDigit)
  | cs => ([], cs)

/-- Optional exponent part `(?:[eE][-+]?\d+)?` of the JSON number regex. -/
def numExpPart : List Char → List Char × List Char
  | c :: s :: r =>
    if c = 'e' ∨ c = 'E' then
      if s = '+' ∨ s = '-' then
        if r.takeWhile Char.isDigit = [] then ([], c :: s :: r)
        else (c :: s :: r.takeWhile Char.isDigit, r.dropWhile Char.isDigit)
      else
        if (s :: r).takeWhile Char.isDigit = [] then ([], c :: s :: r)
        else (c :: (s :: r).takeWhile Char.isDigit, (s :: r).dropWhile Char.isDigit)
    else ([], c :: s :: r)
  | cs => ([], cs)

/-- Maximal match of Python json's NUMBER_RE
`-?(?:0|[1-9]\d*)(?:\.\d+)?(?:[eE][-+]?\d+)?` at the head of the input:
the matched token and the rest. -/
def parseNumberTok (cs : List Char) : Option (List Char × List Char) :=
  let sign : List Char × List Char := if cs.head? = some '-' then (['-'], cs.drop 1) else ([], cs)
  match numIntPart sign.2 with
  | none => none
  | some (ip, r1) =>
    let fr := numFracPart r1
    let ex := numExpPart fr.2
    some (sign.1 ++ ip ++ fr.1 ++ ex.1, ex.2)

/-- Parsing mode: a plain value, the members of an object after `{`
(accumulating decoded pairs), or the elements of an array after `[`. -/
inductive PMode where
  | pvalue : PMode
  | pmembers : List (List Char × Json) → PMode
  | pelems : List Json → PMode

/-- Core of Python's strict `json` decoder (`py_make_scanner` +
`JSONObject`/`JSONArray`), fuelled for structural recursion.  Each
recursive call happens strictly after at least one input character has
been consumed, so fuel `length + 1` (as supplied by `jsonLoads`) never
runs out. -/
def parseP : Nat → PMode → List Char → Option (Json × List Char)
  | 0, _, _ => none
  | Nat.succ fuel, PMode.pvalue, cs =>
    match cs with
    | [] => none
    | c :: rest =>
      if c = braceL then
        match skipWs rest with
        | d :: r2 =>
          if d = braceR then some (Json.obj [], r2)
          else parseP fuel (PMode.pmembers []) (d :: r2)
        | [] => none
      else if c = '[' then
        match skipWs rest with
        | ']' :: r2 => some (Json.arr [], r2)
        | r1 => parseP fuel (PMode.pelems []) r1
      else if c = '\"' then
        match parseStringBody rest with
        | some (s, r) => some (Json.str s, r)
        | none => none
      else if List.isPrefixOf "null".data cs then some (Json.null, cs.drop 4)
      else if List.isPrefixOf "true".data cs then some (Json.bool true, cs.drop 4)
      else if List.isPrefixOf "false".data cs then some (Json.bool false, cs.drop 5)
      else
        match parseNumberTok cs with
        | some (tok, r) => some (Json.num tok, r)
        | none =>
          if List.isPrefixOf "NaN".data cs then some (Json.num "NaN".data, cs.drop 3)
          else if List.isPrefixOf "Infinity".data cs then
            some (Json.num "Infinity".data, cs.drop 8)
          else if List.isPrefixOf "-Infinity".data cs then
            some (Json.num "-Infinity".data, cs.drop 9)
          else none
  | Nat.succ fuel, PMode.pmembers acc, cs =>
    match cs with
    | c :: rest =>
      if c = '\"' then
        match parseStringBody rest with
        | none => none
        | some (k, r1) =>
          match skipWs r1 with
          | ':' :: r2 =>
            match parseP fuel PMode.pvalue (skipWs r2) with
            | none => none
            | some (v, r3) =>
              match skipWs r3 with
              | d :: r4 =>
                if d = ',' then parseP fuel (PMode.pmembers (acc ++ [(k, v)])) (skipWs r4)
                else if d = braceR then some (Json.obj (acc ++ [(k, v)]), r4)
                else none
              | [] => none
          | _ => none
      else none
    | [] => none
  | Nat.succ fuel, PMode.pelems acc, cs =>
    match parseP fuel PMode.pvalue cs with
    | none => none
    | some (v, r1) =>
      match skipWs r1 with
      | ',' :: r2 => parseP fuel (PMode.pelems (acc ++ [v])) (skipWs r2)
      | ']' :: r2 => some (Json.arr (acc ++ [v]), r2)
      | _ => none

/-- Model of Python's `json.loads`: leading whitespace skipped, one value
parsed, trailing whitespace skipped, and the whole input must be
consumed (otherwise "Extra data"). -/
def jsonLoads (cs : List Char) : Option Json :=
  match parseP (cs.length + 1) PMode.pvalue (skipWs cs) with
  | some (v, rest) => if skipWs rest = [] then some v else none
  | none => none

/-- Whether a string is accepted by strict JSON decoding
(`json.loads` succeeds). -/
def jsonValid (cs : List Char) : Bool :=
  (jsonLoads cs).isSome

/-- The markdown fence token. -/
def fenceTok : List Char := "```".data

/-- The optional language tag after an opening fence. -/
def jsonTag : List Char := "json".data

/-- llm_client.py line 23: `re.sub(r'^```(?:json)?\s*', '', text, flags=re.MULTILINE)`.
Scans the text left to right; at every line start (`atLS`), a fence token,
an optional `json` tag and the maximal following whitespace run (which may
span newlines) are deleted; scanning resumes after the deleted run, whose
last character determines whether the next position is again a line start.
Each step consumes at least one character, so fuel `length + 1` suffices. -/
def sub1Go : Nat → Bool → List Char → List Char
  | 0, _, cs => cs
  | Nat.succ fuel, atLS, cs =>
    if atLS ∧ List.isPrefixOf fenceTok cs then
      let r1 := cs.drop 3
      let r2 := if List.isPrefixOf jsonTag r1 then r1.drop 4 else r1
      let ws := r2.takeWhile isPySpace
      sub1Go fuel (decide (ws.getLast? = some '\n')) (r2.dropWhile isPySpace)
    else
      match cs with
      | [] => []
      | c :: rest => c :: sub1Go fuel (decide (c = '\n')) rest

/-- First fence-strip substitution (position 0 is a line start). -/
def sub1 (text : List Char) : List Char :=
  sub1Go (text.length + 1) true text

/-- Index of the last `'\n'` in a list, if any. -/
def lastNlIdx (l : List Char) : Option Nat :=
  match l.reverse.findIdx? (fun c => c == '\n') with
  | some i => some (l.length - 1 - i)
  | none => none

/-- llm_client.py line 25: `re.sub(r'```\s*$', '', text, flags=re.MULTILINE)`.
At every position, a fence token followed by a greedy whitespace run is
deleted provided the position after the run is the end of the text, or —
backtracking to the longest viable run — immediately before a `'\n'`.
Fuel `length + 1` suffices as each step consumes at least one character. -/
def sub2Go : Nat → List Char → List Char
  | 0, cs => cs
  | Nat.succ fuel, cs =>
    if List.isPrefixOf fenceTok cs then
      let r1 := cs.drop 3
      let run := r1.takeWhile isPySpace
      let after := r1.dropWhile isPySpace
      if after = [] then []
      else
        match lastNlIdx run with
        | some k => sub2Go fuel (run.drop k ++ after)
        | none =>
          match cs with
          | c :: rest => c :: sub2Go fuel rest
          | [] => []
    else
      match cs with
      | [] => []
      | c :: rest => c :: sub2Go fuel rest

/-- Second fence-strip substitution. -/
def sub2 (text : List Char) : List Char :=
  sub2Go (text.length + 1) text

/-- llm_client.py lines 23-26: both fence substitutions followed by
`str.strip()`. -/
def mdStrip (text : List Char) : List Char :=
  pyStrip (sub2 (sub1 text))

/-- llm_client.py lines 42-74: the brace-matching scan.  State: brace
depth (Python ints can go negative, hence `Int`), in-string flag, escape
flag; `acc` holds the characters consumed since the first `{`, reversed.
When depth returns to zero at a `}` the candidate (from the first `{` to
here) is tried with `json.loads`; on success it is returned, otherwise
scanning continues. -/
def scanGo : Int → Bool → Bool → List Char → List Char → Option (List Char)
  | _, _, _, _, [] => none
  | depth, inStr, esc, acc, c :: rest =>
    if esc then scanGo depth inStr false (c :: acc) rest
    else if c = '\\' then scanGo depth inStr true (c :: acc) rest
    else if c = '\"' then scanGo depth (!inStr) false (c :: acc) rest
    else if inStr then scanGo depth inStr false (c :: acc) rest
    else if c = braceL then scanGo (depth + 1) inStr false (c :: acc) rest
    else if c = braceR then
      if depth - 1 = 0 then
        if jsonValid ((c :: acc).reverse) then some ((c :: acc).reverse)
        else scanGo (depth - 1) inStr false (c :: acc) rest
      else scanGo (depth - 1) inStr false (c :: acc) rest
    else scanGo depth inStr false (c :: acc) rest

/-- llm_client.py `_extract_json_object` (lines 17-86): strip markdown
fences, find the first `{`, run the brace-matching scan; if no candidate
parses, fall back to the stripped remainder from the first `{`, returned
only if it parses as strict JSON. -/
def extractJsonObject (text : List Char) : Option (List Char) :=
  let t := mdStrip text
  if t = [] then none
  else
    let rem := t.dropWhile (fun c => !(c == braceL))
    if rem = [] then none
    else
      match scanGo 0 false false [] rem with
      | some cand => some cand
      | none =>
        let potential := pyStrip rem
        if jsonValid potential then some potential else none

/-- Python's `str.replace` (all non-overlapping occurrences, left to
right), fuelled; only called with non-empty patterns. -/
def replaceAllGo : Nat → List Char → List Char → List Char → List Char
  | 0, _, _, s => s
  | Nat.succ fuel, pat, repl, s =>
    if List.isPrefixOf pat s then repl ++ replaceAllGo fuel pat repl (s.drop pat.length)
    else
      match s with
      | [] => []
      | c :: rest => c :: replaceAllGo fuel pat repl rest

/-- Python's `str.replace(pat, repl)`. -/
def pyReplace (s pat repl : List Char) : List Char :=
  replaceAllGo (s.length + 1) pat repl s

/-- llm_client.py line 105 first argument.  In this source the line
parses as `fixed.replace(''' , "'")` where `'''` opens a triple-quoted
string: the pattern is the 15-character literal `, "'").replace(` and the
replacement is a single quote character. -/
def tier2Pat : List Char :=
  [',', ' ', '\"', squote, '\"', ')', '.', 'r', 'e', 'p', 'l', 'a', 'c', 'e', '(']

/-- llm_client.py lines 104-105: `json_str.replace('"', '"').replace('"', '"')`
(both replacements are identity: plain double quote to plain double
quote) followed by the line-105 replacement described at `tier2Pat`. -/
def tier2Fix (s : List Char) : List Char :=
  pyReplace (pyReplace (pyReplace s ['\"'] ['\"']) ['\"'] ['\"']) tier2Pat [squote]

/-- Required field `话题归类` (category). -/
def fCat : List Char := "话题归类".data

/-- Required field `话题标签` (tags). -/
def fTags : List Char := "话题标签".data

/-- Required field `话题描述` (description). -/
def fDesc : List Char := "话题描述".data

/-- Required field `相关回忆` (related memory). -/
def fMem : List Char := "相关回忆".data

/-- llm_client.py lines 143 and 215: the four required fields. -/
def requiredFields : List (List Char) :=
  [fCat, fTags, fDesc, fMem]

/-- Match of `"FIELD"\s*:\s*"([^"]*)"` anchored at the head of `cs`:
the quoted field name, optional whitespace, a colon, optional whitespace,
then a quoted capture of non-quote characters which must be terminated by
a closing quote. -/
def matchScalarAt (field : List Char) (cs : List Char) : Option (List Char) :=
  if List.isPrefixOf ('\"' :: field ++ ['\"']) cs then
    match (cs.drop (field.length + 2)).dropWhile isPySpace with
    | ':' :: r2 =>
      match r2.dropWhile isPySpace with
      | q :: r3 =>
        if q = '\"' then
          if r3.dropWhile (fun c => !(c == '\"')) = [] then none
          else some (r3.takeWhile (fun c => !(c == '\"')))
        else none
      | [] => none
    | _ => none
  else none

/-- `re.search` of the scalar-field pattern: leftmost match wins
(llm_client.py lines 117 and 130). -/
def searchScalar (field : List Char) : List Char → Option (List Char)
  | [] => none
  | c :: rest =>
    match matchScalarAt field (c :: rest) with
    | some cap => some cap
    | none => searchScalar field rest

/-- Match of `"话题标签"\s*:\s*\[(.*?)\]` (DOTALL) anchored at the head:
the non-greedy capture runs to the first `]`, which must exist. -/
def matchTagsAt (cs : List Char) : Option (List Char) :=
  if List.isPrefixOf ('\"' :: fTags ++ ['\"']) cs then
    match (cs.drop (fTags.length + 2)).dropWhile isPySpace with
    | ':' :: r2 =>
      match r2.dropWhile isPySpace with
      | b :: r3 =>
        if b = '[' then
          if r3.dropWhile (fun c => !(c == ']')) = [] then none
          else some (r3.takeWhile (fun c => !(c == ']')))
        else none
      | [] => none
    | _ => none
  else none

/-- `re.search` of the tags pattern, leftmost match
(llm_client.py line 122). -/
def searchTags : List Char → Option (List Char)
  | [] => none
  | c :: rest =>
    match matchTagsAt (c :: rest) with
    | some cap => some cap
    | none => searchTags rest

/-- `re.findall(r'"([^"]*)"', s)`: all non-overlapping quoted captures,
left to right (llm_client.py line 126).  Each match consumes at least
its two quotes, so fuel `length + 1` suffices. -/
def findAllQuotedGo : Nat → List Char → List (List Char)
  | 0, _ => []
  | Nat.succ fuel, cs =>
    match cs.dropWhile (fun c => !(c == '\"')) with
    | _ :: r1 =>
      match r1.dropWhile (fun c => !(c == '\"')) with
      | _ :: r2 => r1.takeWhile (fun c => !(c == '\"')) :: findAllQuotedGo fuel r2
      | [] => []
    | [] => []

/-- `re.findall(r'"([^"]*)"', s)`. -/
def pyFindAllQuoted (cs : List Char) : List (List Char) :=
  findAllQuotedGo (cs.length + 1) cs

/-- Body of `((?:[^"\\]|\\.)*)"` (DOTALL): raw characters up to the first
unescaped quote, escapes kept verbatim; `none` when no unescaped closing
quote exists (a dangling backslash also fails the match). -/
def memBody : List Char → Option (List Char)
  | [] => none
  | c :: rest =>
    if c = '\"' then some []
    else if c = '\\' then
      match rest with
      | [] => none
      | d :: rest2 => (fun cap => '\\' :: d :: cap) <$> memBody rest2
    else (fun cap => c :: cap) <$> memBody rest

/-- Match of `"相关回忆"\s*:\s*"((?:[^"\\]|\\.)*)"` (DOTALL) anchored at
the head of `cs`. -/
def matchMemAt (cs : List Char) : Option (List Char) :=
  if List.isPrefixOf ('\"' :: fMem ++ ['\"']) cs then
    match (cs.drop (fMem.length + 2)).dropWhile isPySpace with
    | ':' :: r2 =>
      match r2.dropWhile isPySpace with
      | q :: r3 => if q = '\"' then memBody r3 else none
      | [] => none
    | _ => none
  else none

/-- `re.search` of the memory pattern, leftmost match
(llm_client.py line 135). -/
def searchMem : List Char → Option (List Char)
  | [] => none
  | c :: rest =>
    match matchMemAt (c :: rest) with
    | some cap => some cap
    | none => searchMem rest

/-- One pass of `re.sub(r'\s+', ' ', m)`: each maximal whitespace run
becomes a single space (`prevWs` records whether the previous character
was whitespace). -/
def collapseGo : Bool → List Char → List Char
  | _, [] => []
  | prevWs, c :: rest =>
    if isPySpace c then
      if prevWs then collapseGo true rest else ' ' :: collapseGo true rest
    else c :: collapseGo false rest

/-- llm_client.py line 139: `re.sub(r'\s+', ' ', memory).strip()`. -/
def normalizeWs (l : List Char) : List Char :=
  pyStrip (collapseGo false l)

/-- llm_client.py lines 112-150 (Tier 3): independent regex recovery of
the four fields into a dict (insertion order preserved), returned only if
all four required fields are present. -/
def tier3Extract (s : List Char) : Option Json :=
  let r0 : List (List Char × Json) := []
  let r1 :=
    match searchScalar fCat s with
    | some cap => r0 ++ [(fCat, Json.str cap)]
    | none => r0
  let r2 :=
    match searchTags s with
    | some cap => r1 ++ [(fTags, Json.arr ((pyFindAllQuoted cap).map Json.str))]
    | none => r1
  let r3 :=
    match searchScalar fDesc s with
    | some cap => r2 ++ [(fDesc, Json.str cap)]
    | none => r2
  let r4 :=
    match searchMem s with
    | some cap => r3 ++ [(fMem, Json.str (normalizeWs cap))]
    | none => r3
  if requiredFields.all (fun f => r4.any (fun kv => decide (kv.1 = f))) then
    some (Json.obj r4)
  else none

/-- llm_client.py `_safe_parse_json` (lines 88-150), with the two repair
tiers abstracted so that non-interference can be stated. -/
def safeParseGen (tierTwo tierThree : List Char → Option Json) (s : List Char) : Option Json :=
  if s = [] then none
  else
    match jsonLoads s with
    | some v => some v
    | none =>
      match tierTwo s with
      | some v => some v
      | none => tierThree s

/-- llm_client.py `_safe_parse_json` (lines 88-150): empty input is
rejected; Tier 1 strict parse, Tier 2 the line-104/105 replacement plus
re-parse, Tier 3 regex recovery. -/
def safeParse (s : List Char) : Option Json :=
  if s = [] then none
  else
    match jsonLoads s with
    | some v => some v
    | none =>
      match jsonLoads (tier2Fix s) with
      | some v => some v
      | none => tier3Extract s

/-- Substring test, modelling Python's `in` on strings. -/
def hasSeq (pat : List Char) : List Char → Bool
  | [] => List.isPrefixOf pat []
  | c :: rest => List.isPrefixOf pat (c :: rest) || hasSeq pat rest

/-- Python's `field in parsed_json` for the value kinds `json.loads` can
produce: key membership for a dict, element equality for a list,
substring for a string.  On the remaining kinds Python raises TypeError,
which `call_llm`'s generic except branch turns into the same
consume-one-attempt behaviour as a validation failure, so `false` is
behaviourally faithful there. -/
def hasFieldJson (j : Json) (f : List Char) : Bool :=
  match j with
  | Json.obj kvs => kvs.any (fun kv => decide (kv.1 = f))
  | Json.arr xs => xs.any (fun x => match x with | Json.str s => decide (s = f) | _ => false)
  | Json.str s => hasSeq f s
  | _ => false

/-- llm_client.py lines 215-216: all four required fields present. -/
def validateRecord (j : Json) : Bool :=
  requiredFields.all (hasFieldJson j)

/-- Outcome of one opaque remote call: a transport-level failure
(requests raising) or a reply body (the `choices[0].message.content`
of a well-formed response). -/
inductive SendOutcome where
  | transportError : SendOutcome
  | reply : List Char → SendOutcome

/-- llm_client.py lines 201-217 applied to one reply: locate, parse,
validate; any failure yields `none`. -/
def processReply (content : List Char) : Option Json :=
  match extractJsonObject content with
  | none => none
  | some js =>
    match safeParse js with
    | none => none
    | some v => if validateRecord v then some v else none

/-- Net semantic outcome of attempt `i` against the remote-call oracle. -/
def attemptOutcome (oracle : Nat → SendOutcome) (i : Nat) : Option Json :=
  match oracle i with
  | SendOutcome.transportError => none
  | SendOutcome.reply content => processReply content

/-- Result of `call_llm` together with the number of remote calls made
and of retry-delay pauses taken. -/
structure CallResult where
  result : Option Json
  calls : Nat
  sleeps : Nat

/-- llm_client.py `call_llm` retry loop (lines 175-244), unrolled over the
remaining attempts (`fuel` starts at `max_retries`, `attempt` at 0).  A
pause is taken after a failed attempt exactly when `attempt < max_retries - 1`
(Python's `attempt < self.max_retries - 1`, which for `Nat` agrees with the
Python int arithmetic since `attempt ≥ 0`). -/
def callLLMAux (oracle : Nat → SendOutcome) (maxRetries : Nat) : Nat → Nat → CallResult
  | _, 0 => ⟨none, 0, 0⟩
  | attempt, Nat.succ fuel =>
    match attemptOutcome oracle attempt with
    | some v => ⟨some v, 1, 0⟩
    | none =>
      let r := callLLMAux oracle maxRetries (attempt + 1) fuel
      ⟨r.result, r.calls + 1, r.sleeps + (if attempt < maxRetries - 1 then 1 else 0)⟩

/-- llm_client.py `call_llm`: run up to `max_retries` attempts, returning
`none` (Python `None`) if all fail. -/
def callLLM (oracle : Nat → SendOutcome) (maxRetries : Nat) : CallResult :=
  callLLMAux oracle maxRetries 0 maxRetries

/-- main.py lines 99-102: one results-sequence entry. -/
structure ResultEntry where
  fileName : List Char
  analysis : Json

/-- Driver state: in-memory progress list and results list, plus the
sequence of durable save snapshots taken so far in this run (each save
persists both structures from the same state, main.py lines 115-116 and
135-136). -/
structure DriverState where
  processedFiles : List (List Char)
  results : List ResultEntry
  saves : List (List (List Char) × List ResultEntry)

/-- `os.path.basename` for POSIX paths (main.py line 100). -/
def basename (p : List Char) : List Char :=
  (p.reverse.takeWhile (fun c => !(c == '/'))).reverse

/-- One durable save: persist progress and results together
(main.py lines 115-116 / 135-136). -/
def doSave (st : DriverState) : DriverState :=
  { st with saves := st.saves ++ [(st.processedFiles, st.results)] }

/-- main.py line 104 — the FIRST statement of the success branch:
`results.append(result_entry)`. -/
def appendResult (st : DriverState) (f : List Char) (ana : Json) : DriverState :=
  { st with results := st.results ++ [⟨basename f, ana⟩] }

/-- main.py line 105 — the SECOND statement of the success branch:
`processed_files.append(file_path)`. -/
def appendProgress (st : DriverState) (f : List Char) : DriverState :=
  { st with processedFiles := st.processedFiles ++ [f] }

/-- main.py lines 71-132: the per-file loop.  `oracle f` is the combined
outcome of reading/formatting the file and `call_llm` (either can fail,
yielding `none`); on success both appends happen (results first, then
progress, lines 104-105) followed by the periodic save check
`len(processed_files) % 10 == 0` (line 114). -/
def runFiles (oracle : List Char → Option Json) : List (List Char) → DriverState → DriverState
  | [], st => st
  | f :: fs, st =>
    match oracle f with
    | none => runFiles oracle fs st
    | some ana =>
      let st1 := appendProgress (appendResult st f ana) f
      let st2 := if st1.processedFiles.length % 10 = 0 then doSave st1 else st1
      runFiles oracle fs st2

/-- main.py line 50: `[f for f in all_files if f not in processed_files]`. -/
def workList (corpus processed : List (List Char)) : List (List Char) :=
  corpus.filter (fun f => !(processed.contains f))

/-- main.py `main` (lines 42-136) with I/O abstracted: load prior
artifacts `p0`/`r0`, filter the work list, return early when it is empty
(lines 59-61, note: no save in that case), else run the loop and take the
unconditional final save (lines 134-136).  TEST_MODE is off. -/
def runDriver (oracle : List Char → Option Json) (corpus p0 : List (List Char))
    (r0 : List ResultEntry) : DriverState :=
  let remaining := workList corpus p0
  if remaining = [] then ⟨p0, r0, []⟩
  else doSave (runFiles oracle remaining ⟨p0, r0, []⟩)

/-- Whether a string is in whitespace-normal form: no leading or trailing
whitespace, every whitespace character is a plain space, and no two
consecutive whitespace characters. -/
def noDoubleSpace : List Char → Bool
  | [] => true
  | [_] => true
  | a :: b :: r => !(isPySpace a && isPySpace b) && noDoubleSpace (b :: r)

/-- Whitespace-normal form (see `noDoubleSpace`). -/
def wsNormalized (l : List Char) : Bool :=
  (match l.head? with | none => true | some c => !isPySpace c) &&
  (match l.getLast? with | none => true | some c => !isPySpace c) &&
  l.all (fun c => !isPySpace c || c == ' ') &&
  noDoubleSpace l

/-- Field lookup on a decoded object (first occurrence; the records built
by this pipeline have no duplicate keys). -/
def getKey (j : Json) (f : List Char) : Option Json :=
  match j with
  | Json.obj kvs => (kvs.find? (fun kv => decide (kv.1 = f))).map (fun kv => kv.2)
  | _ => none

/-- The stripped text from the first `{` on — the string the scan loop
and the truncation fallback of `_extract_json_object` operate on. -/
def remAfterBrace (text : List Char) : List Char :=
  (mdStrip text).dropWhile (fun c => !(c == braceL))

/-- Locator followed by parser, as `call_llm` composes them. -/
def locateThenParse (text : List Char) : Option Json :=
  (extractJsonObject text).bind safeParse

/-- The key of the spec's string-awareness example object. -/
def descKey : List Char := "description".data

/-- The family `\x7b"description": "<v>"\x7d` of one-field JSON objects:
the string value `v` may contain literal braces. -/
def braceObj (v : List Char) : List Char :=
  braceL :: '\"' :: (descKey ++ ['\"', ':', ' ', '\"'] ++ v ++ ['\"', braceR])

/-!  Helper lemmas. -/

theorem dropWhile_head_false {p : Char → Bool} :
    ∀ (l : List Char) (c : Char), (l.dropWhile p).head? = some c → p c = false := by
  intro l
  induction l with
  | nil => intro c h; simp [List.dropWhile] at h
  | cons a rest ih =>
    intro c h
    rw [List.dropWhile_cons] at h
    by_cases hp : p a
    · simp [hp] at h; exact ih c h
    · simp [hp] at h
      subst h
      simpa using hp

theorem dropWhile_append_or (pr : Char → Bool) :
    ∀ A B : List Char, List.dropWhile pr (A ++ B) =
      if A.dropWhile pr = [] then B.dropWhile pr else A.dropWhile pr ++ B := by
  intro A B
  induction A with
  | nil => simp
  | cons a A ih =>
    rw [List.cons_append, List.dropWhile_cons, List.dropWhile_cons]
    by_cases hp : pr a
    · simp [hp, ih]
    · simp [hp]

theorem dropWhile_nil_of_all {pr : Char → Bool} :
    ∀ A : List Char, (∀ c ∈ A, pr c = true) → A.dropWhile pr = [] := by
  intro A
  induction A with
  | nil => intro _; simp
  | cons a A ih =>
    intro h
    rw [List.dropWhile_cons, if_pos (h a (by simp))]
    exact ih (fun c hc => h c (by simp [hc]))

theorem pyRStrip_take : ∀ l : List Char, ∃ n, n ≤ l.length ∧ pyRStrip l = l.take n := by
  intro l
  induction l with
  | nil => exact ⟨0, by simp [pyRStrip]⟩
  | cons c rest ih =>
    obtain ⟨n, hn, hr⟩ := ih
    by_cases h : pyRStrip rest = [] ∧ isPySpace c
    · exact ⟨0, by simp [pyRStrip, h]⟩
    · refine ⟨n + 1, by simpa using hn, ?_⟩
      simp only [pyRStrip, if_neg h, List.take_succ_cons]
      rw [hr]

theorem take_len_succ_append :
    ∀ (A : List Char) (c : Char) (r : List Char),
      (A ++ c :: r).take (A.length + 1) = A ++ [c] := by
  intro A c r
  induction A with
  | nil => simp
  | cons a A ih => simpa using ih

/-- Every `some` the scan loop returns passed the strict-JSON check. -/
theorem scanGo_valid :
    ∀ (rest : List Char) (d : Int) (b e : Bool) (acc s : List Char),
      scanGo d b e acc rest = some s → jsonValid s = true := by
  intro rest
  induction rest with
  | nil => intro d b e acc s h; simp [scanGo] at h
  | cons c rest ih =>
    intro d b e acc s h
    rw [scanGo] at h
    split_ifs at h with h1 h2 h3 h4 h5 h6 h7 h8
    · exact ih _ _ _ _ _ h
    · exact ih _ _ _ _ _ h
    · exact ih _ _ _ _ _ h
    · exact ih _ _ _ _ _ h
    · exact ih _ _ _ _ _ h
    · rw [Option.some_inj] at h; rw [← h]; exact h8
    · exact ih _ _ _ _ _ h
    · exact ih _ _ _ _ _ h
    · exact ih _ _ _ _ _ h

/-- If no prefix of the text from the first `\x7b` is strict JSON, the
scan loop finds nothing: every candidate it tries is such a prefix. -/
theorem scanGo_none_of_prefix_invalid :
    ∀ (rest : List Char) (d : Int) (b e : Bool) (acc : List Char),
      (∀ n, jsonValid ((acc.reverse ++ rest).take n) = false) →
      scanGo d b e acc rest = none := by
  intro rest
  induction rest with
  | nil => intro d b e acc _; rfl
  | cons c rest ih =>
    intro d b e acc h
    have hmove : ∀ n, jsonValid (((c :: acc).reverse ++ rest).take n) = false := by
      intro n
      have : (c :: acc).reverse ++ rest = acc.reverse ++ c :: rest := by simp
      rw [this]; exact h n
    have hcand : jsonValid ((c :: acc).reverse) = false := by
      have h1 : (c :: acc).reverse = (acc.reverse ++ c :: rest).take (acc.length + 1) := by
        rw [List.reverse_cons]
        rw [show acc.length = acc.reverse.length from (List.length_reverse acc).symm]
        exact (take_len_succ_append acc.reverse c rest).symm
      rw [h1]; exact h (acc.length + 1)
    rw [scanGo]
    split_ifs with h1 h2 h3 h4 h5 h6 h7 h8
    · exact ih _ _ _ _ hmove
    · exact ih _ _ _ _ hmove
    · exact ih _ _ _ _ hmove
    · exact ih _ _ _ _ hmove
    · exact ih _ _ _ _ hmove
    · rw [hcand] at h8; exact absurd h8 (by simp)
    · exact ih _ _ _ _ hmove
    · exact ih _ _ _ _ hmove
    · exact ih _ _ _ _ hmove

/-- C10: every non-NOT_FOUND value returned by the locator
(`_extract_json_object`) is a string accepted by strict JSON decoding —
both the in-scan candidate path and the whole-remainder fallback verify
the span with a strict parse before returning it. -/
theorem C10_locator_output_strictly_valid (text s : List Char)
    (h : extractJsonObject text = some s) : jsonValid s = true := by
  simp only [extractJsonObject] at h
  rw [show List.dropWhile (fun c => !(c == braceL)) (mdStrip text) = remAfterBrace text
    from rfl] at h
  split_ifs at h with h1 h2 h3
  · rcases hscan : scanGo 0 false false [] (remAfterBrace text) with _ | cand
    · simp only [hscan, Option.some_inj] at h
      rw [← h]; exact h3
    · simp only [hscan, Option.some_inj] at h
      rw [← h]; exact scanGo_valid _ _ _ _ _ _ hscan
  · rcases hscan : scanGo 0 false false [] (remAfterBrace text) with _ | cand
    · simp [hscan] at h
    · simp only [hscan, Option.some_inj] at h
      rw [← h]; exact scanGo_valid _ _ _ _ _ _ hscan

/-- Witness for C10 at a concrete input. -/
theorem C10_locator_output_strictly_valid_witness :
    jsonValid "\x7b\"a\": 1\x7d".data = true :=
  C10_locator_output_strictly_valid "noise \x7b\"a\": 1\x7d trailing".data
    "\x7b\"a\": 1\x7d".data (by rfl)

/-- C6: if no prefix of the stripped text from the first `\x7b`
(candidates and the stripped whole remainder are all such prefixes)
parses as strict JSON, the locator returns NOT_FOUND and hence
locate-then-parse yields NOT_FOUND/NOT_RECOVERABLE: the whole-remainder
fallback is returned only if it parses as strict JSON. -/
theorem C6_truncated_input_not_found (text : List Char)
    (h : ∀ n, n ≤ (remAfterBrace text).length →
      jsonValid ((remAfterBrace text).take n) = false) :
    extractJsonObject text = none ∧ locateThenParse text = none := by
  have hall : ∀ n, jsonValid ((remAfterBrace text).take n) = false := by
    intro n
    by_cases hn : n ≤ (remAfterBrace text).length
    · exact h n hn
    · rw [List.take_of_length_le (le_of_lt (lt_of_not_le hn))]
      have := h (remAfterBrace text).length (le_refl _)
      rwa [List.take_length] at this
  have hhead : ∀ c, (remAfterBrace text).head? = some c → c = braceL := by
    intro c hc
    have := dropWhile_head_false (p := fun c => !(c == braceL)) (mdStrip text) c hc
    simpa using this
  have hnows : (remAfterBrace text).dropWhile isPySpace = remAfterBrace text := by
    rcases he : remAfterBrace text with _ | ⟨c, rest⟩
    · simp
    · have hc : c = braceL := hhead c (by rw [he]; rfl)
      rw [List.dropWhile_cons, if_neg (by rw [hc]; decide)]
  obtain ⟨n, hn, hps⟩ := pyRStrip_take (remAfterBrace text)
  have hstrip : pyStrip (remAfterBrace text) = (remAfterBrace text).take n := by
    rw [pyStrip, hnows, hps]
  have hex : extractJsonObject text = none := by
    simp only [extractJsonObject]
    rw [show List.dropWhile (fun c => !(c == braceL)) (mdStrip text) = remAfterBrace text
      from rfl]
    split_ifs with h1 h2 h3
    · rfl
    · rfl
    · exfalso
      rw [hstrip, hall n] at h3
      exact absurd h3 (by simp)
    · rw [scanGo_none_of_prefix_invalid (remAfterBrace text) 0 false false []
        (by intro m; simpa using hall m)]
  exact ⟨hex, by rw [locateThenParse, hex]; rfl⟩

/-- Witness for C6 at a concrete truncated input. -/
theorem C6_truncated_input_not_found_witness :
    extractJsonObject "reply: \x7b\"a\": 1, ".data = none ∧
    locateThenParse "reply: \x7b\"a\": 1, ".data = none :=
  C6_truncated_input_not_found "reply: \x7b\"a\": 1, ".data (by decide)

/-- C9: the parser tiers short-circuit.  On input accepted by strict JSON
decoding, `_safe_parse_json` returns exactly the strict decoding result;
moreover in the generalized form the result is the same whatever the
Tier-2 and Tier-3 strategies are — they are never consulted — and the
source `safeParse` is the instance of that generalized form at the
source's own tiers. -/
theorem C9_strict_parse_short_circuits :
    (∀ s v, jsonLoads s = some v → safeParse s = some v) ∧
    (∀ tierTwo tierThree s v, jsonLoads s = some v →
      safeParseGen tierTwo tierThree s = some v) ∧
    (∀ s, safeParse s = safeParseGen (fun t => jsonLoads (tier2Fix t)) tier3Extract s) := by
  have hne : ∀ (s : List Char) (v : Json), jsonLoads s = some v → ¬s = [] := by
    intro s v h he
    subst he
    rw [show jsonLoads [] = none from rfl] at h
    exact Option.noConfusion h
  refine ⟨?_, ?_, ?_⟩
  · intro s v h
    rw [safeParse, if_neg (hne s v h), h]
  · intro tierTwo tierThree s v h
    rw [safeParseGen, if_neg (hne s v h), h]
  · intro s; rfl

/-- Witness for C9 at a concrete strict-JSON input. -/
theorem C9_strict_parse_short_circuits_witness :
    safeParse "\x7b\"k\": [1, 2]\x7d".data =
      some (Json.obj [("k".data, Json.arr [Json.num "1".data, Json.num "2".data])]) :=
  C9_strict_parse_short_circuits.1 "\x7b\"k\": [1, 2]\x7d".data
    (Json.obj [("k".data, Json.arr [Json.num "1".data, Json.num "2".data])]) (by rfl)

theorem hasSeq_cons_false {pat : List Char} {c : Char} {rest : List Char}
    (h : hasSeq pat (c :: rest) = false) :
    List.isPrefixOf pat (c :: rest) = false ∧ hasSeq pat rest = false := by
  rw [hasSeq, Bool.or_eq_false_iff] at h
  exact h

theorem sub1Go_id : ∀ (fuel : Nat) (atLS : Bool) (cs : List Char),
    hasSeq fenceTok cs = false → sub1Go fuel atLS cs = cs := by
  intro fuel
  induction fuel with
  | zero => intro _ _ _; rfl
  | succ fuel ih =>
    intro atLS cs h
    have hpre : List.isPrefixOf fenceTok cs = false := by
      rcases cs with _ | ⟨c, rest⟩
      · rfl
      · exact (hasSeq_cons_false h).1
    simp only [sub1Go]
    rw [if_neg (by simp [hpre])]
    rcases cs with _ | ⟨c, rest⟩
    · rfl
    · show c :: sub1Go fuel (decide (c = '\n')) rest = c :: rest
      rw [ih _ rest (hasSeq_cons_false h).2]

theorem sub2Go_id : ∀ (fuel : Nat) (cs : List Char),
    hasSeq fenceTok cs = false → sub2Go fuel cs = cs := by
  intro fuel
  induction fuel with
  | zero => intro _ _; rfl
  | succ fuel ih =>
    intro cs h
    have hpre : List.isPrefixOf fenceTok cs = false := by
      rcases cs with _ | ⟨c, rest⟩
      · rfl
      · exact (hasSeq_cons_false h).1
    simp only [sub2Go]
    rw [if_neg (by simp [hpre])]
    rcases cs with _ | ⟨c, rest⟩
    · rfl
    · show c :: sub2Go fuel rest = c :: rest
      rw [ih rest (hasSeq_cons_false h).2]

/-- On text with no fence token anywhere, both substitutions are the
identity and the markdown strip is just `str.strip()`. -/
theorem mdStrip_eq_pyStrip_of_no_fence (text : List Char)
    (h : hasSeq fenceTok text = false) : mdStrip text = pyStrip text := by
  rw [mdStrip, sub1, sub1Go_id _ _ _ h, sub2, sub2Go_id _ _ h]

/-- C7 (amended): the fence strip is line-anchored but applies to EVERY
line of the text, not only its first and last: text containing no fence
token at all is left unchanged (up to the outer whitespace strip), a
fence token strictly inside a line survives, but a fence marker at the
start of an interior line is removed as well. -/
theorem C7_fence_strip_line_anchored :
    (∀ text, hasSeq fenceTok text = false → mdStrip text = pyStrip text) ∧
    mdStrip "abc ``` def".data = "abc ``` def".data ∧
    mdStrip "abc\n```\ndef".data = "abc\ndef".data :=
  ⟨mdStrip_eq_pyStrip_of_no_fence, by decide, by decide⟩

/-- Witness for C7 on fence-free text. -/
theorem C7_fence_strip_line_anchored_witness :
    mdStrip "plain \x7b\"a\": 1\x7d text".data = pyStrip "plain \x7b\"a\": 1\x7d text".data :=
  C7_fence_strip_line_anchored.1 "plain \x7b\"a\": 1\x7d text".data (by decide)

/-- C7 counterexample: in `"abc\n```\ndef"` the fence token sits on an
interior line (neither the first nor the last line of the text), yet the
strip removes it — interior fence-marker lines do NOT survive, because
both substitutions use MULTILINE anchors and replace every occurrence. -/
theorem C7_counterexample :
    hasSeq fenceTok "abc\n```\ndef".data = true ∧
    mdStrip "abc\n```\ndef".data = "abc\ndef".data ∧
    hasSeq fenceTok (mdStrip "abc\n```\ndef".data) = false := by
  refine ⟨by decide, by decide, by decide⟩

theorem noDouble_tail {a : Char} {l : List Char}
    (h : noDoubleSpace (a :: l) = true) : noDoubleSpace l = true := by
  rcases l with _ | ⟨b, r⟩
  · rfl
  · rw [noDoubleSpace, Bool.and_eq_true] at h
    exact h.2

theorem noDouble_cons_intro {a : Char} {l : List Char}
    (ha : isPySpace a = false) (hl : noDoubleSpace l = true) :
    noDoubleSpace (a :: l) = true := by
  rcases l with _ | ⟨b, r⟩
  · rfl
  · rw [noDoubleSpace, Bool.and_eq_true]
    exact ⟨by simp [ha], hl⟩

theorem noDouble_cons_sp {l : List Char}
    (hh : ∀ c, l.head? = some c → isPySpace c = false)
    (hl : noDoubleSpace l = true) : noDoubleSpace (' ' :: l) = true := by
  rcases l with _ | ⟨b, r⟩
  · rfl
  · rw [noDoubleSpace, Bool.and_eq_true]
    refine ⟨by simp [hh b rfl], hl⟩

theorem collapse_allSp : ∀ (l : List Char) (b : Bool),
    (collapseGo b l).all (fun c => !isPySpace c || c == ' ') = true := by
  intro l
  induction l with
  | nil => intro b; rfl
  | cons a l ih =>
    intro b
    rw [collapseGo]
    by_cases ha : isPySpace a
    · rw [if_pos ha]
      by_cases hb : b
      · rw [if_pos hb]; exact ih true
      · rw [if_neg hb]
        rw [List.all_cons, Bool.and_eq_true]
        exact ⟨by decide, ih true⟩
    · rw [if_neg ha]
      rw [List.all_cons, Bool.and_eq_true]
      exact ⟨by simp [Bool.eq_false_iff.mpr ha], ih false⟩

theorem collapse_head : ∀ (l : List Char) (c : Char),
    (collapseGo true l).head? = some c → isPySpace c = false := by
  intro l
  induction l with
  | nil => intro c h; simp [collapseGo] at h
  | cons a l ih =>
    intro c h
    rw [collapseGo] at h
    by_cases ha : isPySpace a
    · rw [if_pos ha, if_pos rfl] at h
      exact ih c h
    · rw [if_neg ha] at h
      simp at h
      rw [← h]
      exact Bool.eq_false_iff.mpr ha

theorem collapse_noDbl : ∀ (l : List Char) (b : Bool),
    noDoubleSpace (collapseGo b l) = true := by
  intro l
  induction l with
  | nil => intro b; rfl
  | cons a l ih =>
    intro b
    rw [collapseGo]
    by_cases ha : isPySpace a
    · rw [if_pos ha]
      by_cases hb : b
      · rw [if_pos hb]; exact ih true
      · rw [if_neg hb]
        exact noDouble_cons_sp (collapse_head l) (ih true)
    · rw [if_neg ha]
      exact noDouble_cons_intro (Bool.eq_false_iff.mpr ha) (ih false)

theorem noDouble_dropWhile {l : List Char} (h : noDoubleSpace l = true) :
    noDoubleSpace (l.dropWhile isPySpace) = true := by
  induction l with
  | nil => exact h
  | cons a l ih =>
    rw [List.dropWhile_cons]
    by_cases ha : isPySpace a
    · rw [if_pos ha]; exact ih (noDouble_tail h)
    · rw [if_neg ha]; exact h

theorem noDouble_take : ∀ (l : List Char) (n : Nat),
    noDoubleSpace l = true → noDoubleSpace (l.take n) = true := by
  intro l
  induction l with
  | nil => intro n _; simp [noDoubleSpace]
  | cons a l ih =>
    intro n h
    rcases n with _ | m
    · rfl
    rcases l with _ | ⟨b, r⟩
    · simpa using h
    rcases m with _ | k
    · rfl
    · rw [List.take_succ_cons, List.take_succ_cons]
      rw [noDoubleSpace, Bool.and_eq_true]
      rw [noDoubleSpace, Bool.and_eq_true] at h
      refine ⟨h.1, ?_⟩
      have := ih (k + 1) h.2
      rwa [List.take_succ_cons] at this

theorem head_take {l : List Char} {n : Nat} {c : Char}
    (h : (l.take n).head? = some c) : l.head? = some c := by
  rcases l with _ | ⟨a, r⟩
  · simp at h
  · rcases n with _ | m
    · simp at h
    · simpa using h

theorem pyRStrip_last : ∀ (l : List Char) (c : Char),
    (pyRStrip l).getLast? = some c → isPySpace c = false := by
  intro l
  induction l with
  | nil => intro c h; simp [pyRStrip] at h
  | cons a rest ih =>
    intro c h
    rw [pyRStrip] at h
    by_cases hc : pyRStrip rest = [] ∧ isPySpace a
    · rw [if_pos hc] at h; simp at h
    · rw [if_neg hc] at h
      rcases hr : pyRStrip rest with _ | ⟨x, xs⟩
      · rw [hr] at h
        simp at h
        rw [← h]
        rcases (not_and_or.mp hc) with hne | hns
        · exact absurd hr hne
        · exact Bool.eq_false_iff.mpr hns
      · rw [hr] at h
        rw [List.getLast?_cons_cons] at h
        exact ih c (by rw [hr]; exact h)

/-- Whatever the input, `re.sub(r'\s+', ' ', m).strip()` produces a
string in whitespace-normal form. -/
theorem wsNormalized_normalizeWs (l : List Char) : wsNormalized (normalizeWs l) = true := by
  have hnw : normalizeWs l = pyRStrip ((collapseGo false l).dropWhile isPySpace) := rfl
  obtain ⟨n, hn, ht⟩ := pyRStrip_take ((collapseGo false l).dropWhile isPySpace)
  rw [wsNormalized]
  simp only [Bool.and_eq_true]
  refine ⟨⟨⟨?_, ?_⟩, ?_⟩, ?_⟩
  · rcases hh : (normalizeWs l).head? with _ | c
    · rfl
    · rw [hnw, ht] at hh
      have h2 := head_take hh
      have h3 := dropWhile_head_false (p := isPySpace) _ _ h2
      simp [h3]
  · rcases hh : (normalizeWs l).getLast? with _ | c
    · rfl
    · rw [hnw] at hh
      have := pyRStrip_last _ _ hh
      simp [this]
  · rw [List.all_eq_true]
    intro c hc
    rw [hnw, ht] at hc
    have hc2 : c ∈ collapseGo false l :=
      (List.dropWhile_sublist _).subset ((List.take_sublist _ _).subset hc)
    have := collapse_allSp l false
    rw [List.all_eq_true] at this
    exact this c hc2
  · rw [hnw, ht]
    exact noDouble_take _ _ (noDouble_dropWhile (collapse_noDbl l false))

/-- Tier 3 as a function of its four independent field searches: it
returns a record exactly when all four succeed, and then the record holds
exactly the four captures (memory whitespace-normalized). -/
theorem tier3_characterization (s : List Char) :
    tier3Extract s =
      match searchScalar fCat s, searchTags s, searchScalar fDesc s, searchMem s with
      | some c1, some ct, some c3, some c4 =>
        some (Json.obj [(fCat, Json.str c1),
          (fTags, Json.arr ((pyFindAllQuoted ct).map Json.str)),
          (fDesc, Json.str c3), (fMem, Json.str (normalizeWs c4))])
      | _, _, _, _ => none := by
  rcases h1 : searchScalar fCat s with _ | c1 <;>
  rcases h2 : searchTags s with _ | ct <;>
  rcases h3 : searchScalar fDesc s with _ | c3 <;>
  rcases h4 : searchMem s with _ | c4 <;>
  simp only [tier3Extract, h1, h2, h3, h4, List.nil_append, List.cons_append,
    List.append_nil, requiredFields, List.all_cons, List.all_nil, List.any_cons,
    List.any_nil, Bool.or_eq_true, Bool.and_eq_true, decide_eq_true_eq] <;>
  rfl

/-- C5: Tier 3 includes a field only if its pattern matched (values come
only from the captures — nothing is synthesized or defaulted), and it
returns a record only when all four required fields were independently
recovered; if any is missing it returns NOT_RECOVERABLE, never a partial
record. -/
theorem C5_tier3_field_recovery (s : List Char) :
    (∀ r, tier3Extract s = some r →
      ∃ c1 ct c3 c4,
        searchScalar fCat s = some c1 ∧ searchTags s = some ct ∧
        searchScalar fDesc s = some c3 ∧ searchMem s = some c4 ∧
        r = Json.obj [(fCat, Json.str c1),
          (fTags, Json.arr ((pyFindAllQuoted ct).map Json.str)),
          (fDesc, Json.str c3), (fMem, Json.str (normalizeWs c4))]) ∧
    ((searchScalar fCat s = none ∨ searchTags s = none ∨
      searchScalar fDesc s = none ∨ searchMem s = none) →
      tier3Extract s = none) := by
  have hc := tier3_characterization s
  have hmain : ∀ r, tier3Extract s = some r →
      ∃ c1 ct c3 c4,
        searchScalar fCat s = some c1 ∧ searchTags s = some ct ∧
        searchScalar fDesc s = some c3 ∧ searchMem s = some c4 ∧
        r = Json.obj [(fCat, Json.str c1),
          (fTags, Json.arr ((pyFindAllQuoted ct).map Json.str)),
          (fDesc, Json.str c3), (fMem, Json.str (normalizeWs c4))] := by
    intro r hr
    rw [hc] at hr
    rcases h1 : searchScalar fCat s with _ | c1 <;> rw [h1] at hr
    · exact absurd hr (by simp)
    rcases h2 : searchTags s with _ | ct <;> rw [h2] at hr
    · exact absurd hr (by simp)
    rcases h3 : searchScalar fDesc s with _ | c3 <;> rw [h3] at hr
    · exact absurd hr (by simp)
    rcases h4 : searchMem s with _ | c4 <;> rw [h4] at hr
    · exact absurd hr (by simp)
    rw [Option.some_inj] at hr
    exact ⟨c1, ct, c3, c4, rfl, rfl, rfl, rfl, hr.symm⟩
  refine ⟨hmain, ?_⟩
  intro hd
  rcases he : tier3Extract s with _ | r
  · rfl
  · obtain ⟨c1, ct, c3, c4, e1, e2, e3, e4, _⟩ := hmain r he
    rcases hd with h | h | h | h
    · rw [e1] at h; exact Option.noConfusion h
    · rw [e2] at h; exact Option.noConfusion h
    · rw [e3] at h; exact Option.noConfusion h
    · rw [e4] at h; exact Option.noConfusion h

/-- Witness for C5: on input whose category field is missing (the other
three present), Tier 3 returns NOT_RECOVERABLE rather than a partial
record. -/
theorem C5_tier3_field_recovery_witness :
    tier3Extract
      "\x7b\"话题标签\": [\"t\"], \"话题描述\": \"b\", \"相关回忆\": \"c\"\x7d".data = none :=
  (C5_tier3_field_recovery
      "\x7b\"话题标签\": [\"t\"], \"话题描述\": \"b\", \"相关回忆\": \"c\"\x7d".data).2
    (Or.inl (by rfl))

/-- C8 (amended): whitespace normalization of the related-memory field is
performed by Tier 3 only — every record produced by the Tier-3 regex
recovery has its memory field in whitespace-normal form.  (Records
accepted through Tier 1/2 keep the decoded field verbatim; see the
counterexample.) -/
theorem C8_tier3_memory_whitespace_normalized (s : List Char) (r : Json)
    (h : tier3Extract s = some r) (v : List Char)
    (hv : getKey r fMem = some (Json.str v)) : wsNormalized v = true := by
  have hc := tier3_characterization s
  rw [h] at hc
  rcases h1 : searchScalar fCat s with _ | c1 <;> rw [h1] at hc
  · exact absurd hc (by simp)
  rcases h2 : searchTags s with _ | ct <;> rw [h2] at hc
  · exact absurd hc (by simp)
  rcases h3 : searchScalar fDesc s with _ | c3 <;> rw [h3] at hc
  · exact absurd hc (by simp)
  rcases h4 : searchMem s with _ | c4 <;> rw [h4] at hc
  · exact absurd hc (by simp)
  rw [Option.some_inj] at hc
  subst hc
  have hget : getKey (Json.obj [(fCat, Json.str c1),
      (fTags, Json.arr ((pyFindAllQuoted ct).map Json.str)),
      (fDesc, Json.str c3), (fMem, Json.str (normalizeWs c4))]) fMem =
      some (Json.str (normalizeWs c4)) := rfl
  rw [hget] at hv
  simp only [Option.some_inj, Json.str.injEq] at hv
  rw [← hv]
  exact wsNormalized_normalizeWs c4

/-- Witness for C8 at a concrete Tier-3 recovery. -/
theorem C8_tier3_memory_whitespace_normalized_witness :
    wsNormalized "c d".data = true :=
  C8_tier3_memory_whitespace_normalized
    ("\x7b\"话题归类\": \"a\", \"话题标签\": [\"t1\",\"t2\"], " ++
      "\"话题描述\": \"b\", \"相关回忆\": \"c  d\",\x7d").data
    (Json.obj [(fCat, Json.str "a".data),
      (fTags, Json.arr [Json.str "t1".data, Json.str "t2".data]),
      (fDesc, Json.str "b".data), (fMem, Json.str "c d".data)]) (by rfl)
    "c d".data (by rfl)

/-- C8 counterexample: a strict-JSON reply is accepted as VALID (all four
required fields present) through Tier 1, and its related-memory field
keeps its double space verbatim — Tier 1/2 perform no whitespace
normalization, so the claim over EVERY accepted record is false. -/
theorem C8_counterexample :
    safeParse
        "\x7b\"话题归类\":\"a\",\"话题标签\":[],\"话题描述\":\"b\",\"相关回忆\":\"x  y\"\x7d".data =
      some (Json.obj [(fCat, Json.str "a".data), (fTags, Json.arr []),
        (fDesc, Json.str "b".data), (fMem, Json.str "x  y".data)]) ∧
    validateRecord (Json.obj [(fCat, Json.str "a".data), (fTags, Json.arr []),
        (fDesc, Json.str "b".data), (fMem, Json.str "x  y".data)]) = true ∧
    wsNormalized "x  y".data = false :=
  ⟨rfl, by decide, by decide⟩

theorem callLLMAux_calls_le (oracle : Nat → SendOutcome) (m : Nat) :
    ∀ (fuel attempt : Nat), (callLLMAux oracle m attempt fuel).calls ≤ fuel := by
  intro fuel
  induction fuel with
  | zero => intro attempt; exact Nat.le_refl 0
  | succ fuel ih =>
    intro attempt
    rw [callLLMAux]
    rcases attemptOutcome oracle attempt with _ | v
    · exact Nat.succ_le_succ (ih (attempt + 1))
    · exact Nat.succ_le_succ (Nat.zero_le fuel)

theorem callLLMAux_first_success (oracle : Nat → SendOutcome) (m k : Nat) (v : Json)
    (hfail : ∀ i, i < k → attemptOutcome oracle i = none)
    (hok : attemptOutcome oracle k = some v) (hk : k < m) :
    ∀ (fuel attempt : Nat), attempt + fuel = m → attempt ≤ k →
      callLLMAux oracle m attempt fuel = ⟨some v, k + 1 - attempt, k - attempt⟩ := by
  intro fuel
  induction fuel with
  | zero =>
    intro attempt hfm hak
    omega
  | succ fuel ih =>
    intro attempt hfm hak
    rw [callLLMAux]
    rcases Nat.eq_or_lt_of_le hak with heq | hlt
    · subst heq
      rw [hok]
      have h1 : attempt + 1 - attempt = 1 := by omega
      have h2 : attempt - attempt = 0 := by omega
      rw [h1, h2]
    · rw [hfail attempt hlt]
      rw [ih (attempt + 1) (by omega) hlt]
      have hs : attempt < m - 1 := by omega
      rw [if_pos hs]
      have h1 : k + 1 - (attempt + 1) + 1 = k + 1 - attempt := by omega
      have h2 : k - (attempt + 1) + 1 = k - attempt := by omega
      show CallResult.mk (some v) (k + 1 - (attempt + 1) + 1) (k - (attempt + 1) + 1) =
        CallResult.mk (some v) (k + 1 - attempt) (k - attempt)
      rw [h1, h2]

theorem callLLMAux_all_fail (oracle : Nat → SendOutcome) (m : Nat)
    (hfail : ∀ i, i < m → attemptOutcome oracle i = none) :
    ∀ (fuel attempt : Nat), attempt + fuel = m →
      callLLMAux oracle m attempt fuel = ⟨none, fuel, fuel - 1⟩ := by
  intro fuel
  induction fuel with
  | zero => intro attempt _; rfl
  | succ fuel ih =>
    intro attempt hfm
    rw [callLLMAux, hfail attempt (by omega)]
    rw [ih (attempt + 1) (by omega)]
    rcases Nat.eq_zero_or_pos fuel with hz | hp
    · subst hz
      have : ¬attempt < m - 1 := by omega
      rw [if_neg this]
    · have : attempt < m - 1 := by omega
      rw [if_pos this]
      have h1 : fuel - 1 + 1 = fuel + 1 - 1 := by omega
      show CallResult.mk none (fuel + 1) (fuel - 1 + 1) =
        CallResult.mk none (fuel + 1) (fuel + 1 - 1)
      rw [h1]

/-- C2: `call_llm` makes at most `max_retries` remote calls; the first
attempt whose reply passes locate-parse-validate is returned immediately,
having consumed exactly its `k` failed predecessors (each followed by one
retry pause, since attempts remained); if all attempts fail — transport
errors and semantic failures alike, via `attemptOutcome` — the result is
`none` (FAILED, returned rather than raised) after `m` calls and `m - 1`
pauses.  In particular a call failing N−1 times then succeeding yields
the record with maxAttempts = N and FAILED with maxAttempts = N−1. -/
theorem C2_retry_budget :
    (∀ oracle m, (callLLM oracle m).calls ≤ m) ∧
    (∀ oracle m k v, (∀ i, i < k → attemptOutcome oracle i = none) →
      attemptOutcome oracle k = some v → k < m →
      callLLM oracle m = ⟨some v, k + 1, k⟩) ∧
    (∀ oracle m, (∀ i, i < m → attemptOutcome oracle i = none) →
      callLLM oracle m = ⟨none, m, m - 1⟩) ∧
    (∀ oracle N v, 1 ≤ N → (∀ i, i < N - 1 → attemptOutcome oracle i = none) →
      attemptOutcome oracle (N - 1) = some v →
      (callLLM oracle N).result = some v ∧ (callLLM oracle (N - 1)).result = none) := by
  refine ⟨?_, ?_, ?_, ?_⟩
  · intro oracle m
    exact callLLMAux_calls_le oracle m m 0
  · intro oracle m k v hfail hok hk
    have := callLLMAux_first_success oracle m k v hfail hok hk m 0 (by omega) (by omega)
    rw [callLLM]
    simpa using this
  · intro oracle m hfail
    have := callLLMAux_all_fail oracle m hfail m 0 (by omega)
    rw [callLLM]
    simpa using this
  · intro oracle N v hN hfail hok
    constructor
    · have := callLLMAux_first_success oracle N (N - 1) v hfail hok (by omega) N 0
        (by omega) (by omega)
      rw [callLLM, this]
    · have := callLLMAux_all_fail oracle (N - 1) hfail (N - 1) 0 (by omega)
      rw [callLLM, this]

/-- Witness for C2: an oracle with two transport failures then a reply
carrying a valid record; three attempts recover it, two do not. -/
theorem C2_retry_budget_witness :
    (callLLM (fun i => if i < 2 then SendOutcome.transportError
      else SendOutcome.reply
        "\x7b\"话题归类\":\"a\",\"话题标签\":[\"b\"],\"话题描述\":\"c\",\"相关回忆\":\"d\"\x7d".data)
      3).result =
      some (Json.obj [(fCat, Json.str "a".data), (fTags, Json.arr [Json.str "b".data]),
        (fDesc, Json.str "c".data), (fMem, Json.str "d".data)]) ∧
    (callLLM (fun i => if i < 2 then SendOutcome.transportError
      else SendOutcome.reply
        "\x7b\"话题归类\":\"a\",\"话题标签\":[\"b\"],\"话题描述\":\"c\",\"相关回忆\":\"d\"\x7d".data)
      2).result = none :=
  C2_retry_budget.2.2.2
    (fun i => if i < 2 then SendOutcome.transportError
      else SendOutcome.reply
        "\x7b\"话题归类\":\"a\",\"话题标签\":[\"b\"],\"话题描述\":\"c\",\"相关回忆\":\"d\"\x7d".data)
    3
    (Json.obj [(fCat, Json.str "a".data), (fTags, Json.arr [Json.str "b".data]),
      (fDesc, Json.str "c".data), (fMem, Json.str "d".data)])
    (by omega)
    (by intro i hi
        match i, hi with
        | 0, _ => rfl
        | 1, _ => rfl)
    (by rfl)

theorem doSave_processed (st : DriverState) : (doSave st).processedFiles = st.processedFiles :=
  rfl

theorem doSave_results (st : DriverState) : (doSave st).results = st.results :=
  rfl

theorem runFiles_cons_none (oracle : List Char → Option Json) (g : List Char)
    (fs : List (List Char)) (st : DriverState) (h : oracle g = none) :
    runFiles oracle (g :: fs) st = runFiles oracle fs st := by
  rw [runFiles, h]

theorem runFiles_cons_some (oracle : List Char → Option Json) (g : List Char) (ana : Json)
    (fs : List (List Char)) (st : DriverState) (h : oracle g = some ana) :
    runFiles oracle (g :: fs) st =
      runFiles oracle fs
        (if (appendProgress (appendResult st g ana) g).processedFiles.length % 10 = 0
          then doSave (appendProgress (appendResult st g ana) g)
          else appendProgress (appendResult st g ana) g) := by
  rw [runFiles, h]

theorem runFiles_processed_mono (oracle : List Char → Option Json) :
    ∀ (fs : List (List Char)) (st : DriverState) (f : List Char),
      f ∈ st.processedFiles → f ∈ (runFiles oracle fs st).processedFiles := by
  intro fs
  induction fs with
  | nil => intro st f hf; exact hf
  | cons g fs ih =>
    intro st f hf
    rcases hg : oracle g with _ | ana
    · rw [runFiles_cons_none oracle g fs st hg]
      exact ih st f hf
    · rw [runFiles_cons_some oracle g ana fs st hg]
      have hmem : f ∈ (appendProgress (appendResult st g ana) g).processedFiles :=
        List.mem_append_left _ hf
      by_cases hsave :
        (appendProgress (appendResult st g ana) g).processedFiles.length % 10 = 0
      · rw [if_pos hsave]
        exact ih _ f (by rw [doSave_processed]; exact hmem)
      · rw [if_neg hsave]
        exact ih _ f hmem

theorem runFiles_processes_all (oracle : List Char → Option Json) :
    ∀ (fs : List (List Char)) (st : DriverState) (f : List Char),
      f ∈ fs → (∀ g ∈ fs, (oracle g).isSome = true) →
      f ∈ (runFiles oracle fs st).processedFiles := by
  intro fs
  induction fs with
  | nil => intro st f hf _; exact absurd hf (by simp)
  | cons g fs ih =>
    intro st f hf hall
    rcases hg : oracle g with _ | ana
    · have := hall g (by simp)
      rw [hg] at this
      exact absurd this (by simp)
    · rw [runFiles_cons_some oracle g ana fs st hg]
      rcases List.mem_cons.mp hf with heq | htail
      · subst heq
        have hmem : f ∈ (appendProgress (appendResult st f ana) f).processedFiles :=
          List.mem_append_right _ (by simp)
        by_cases hsave :
          (appendProgress (appendResult st f ana) f).processedFiles.length % 10 = 0
        · rw [if_pos hsave]
          exact runFiles_processed_mono oracle fs _ f (by rw [doSave_processed]; exact hmem)
        · rw [if_neg hsave]
          exact runFiles_processed_mono oracle fs _ f hmem
      · by_cases hsave :
          (appendProgress (appendResult st g ana) g).processedFiles.length % 10 = 0
        · rw [if_pos hsave]
          exact ih _ f htail (fun x hx => hall x (by simp [hx]))
        · rw [if_neg hsave]
          exact ih _ f htail (fun x hx => hall x (by simp [hx]))

/-- C3 (amended): every Corpus entry present in the loaded ProgressLog is
excluded from the run's work list; and PROVIDED every file in the first
run's work list is successfully extracted, re-running with the first
run's final artifacts and an unchanged Corpus has an empty work list,
processes zero files, takes no save, and appends zero new ResultEntry
records.  (Without that proviso the claim is false: a FAILED file is
absent from ProgressLog and is processed again on the next run — see the
counterexample.) -/
theorem C3_idempotent_resume :
    (∀ (corpus processed : List (List Char)) (f : List Char),
      f ∈ processed → f ∉ workList corpus processed) ∧
    (∀ (oracle : List Char → Option Json) (corpus p0 : List (List Char))
      (r0 : List ResultEntry),
      (∀ f ∈ workList corpus p0, (oracle f).isSome = true) →
      workList corpus (runDriver oracle corpus p0 r0).processedFiles = [] ∧
      runDriver oracle corpus (runDriver oracle corpus p0 r0).processedFiles
          (runDriver oracle corpus p0 r0).results =
        ⟨(runDriver oracle corpus p0 r0).processedFiles,
         (runDriver oracle corpus p0 r0).results, []⟩) := by
  have hwl : ∀ (corpus processed : List (List Char)) (f : List Char),
      f ∈ processed → f ∉ workList corpus processed := by
    intro corpus processed f hf hmem
    rw [workList, List.mem_filter] at hmem
    have := hmem.2
    simp at this
    exact this (by simpa using List.elem_eq_true_of_mem hf)
  refine ⟨hwl, ?_⟩
  intro oracle corpus p0 r0 hsucc
  have hcover : ∀ f ∈ corpus, f ∈ (runDriver oracle corpus p0 r0).processedFiles := by
    intro f hf
    rw [runDriver]
    by_cases hre : workList corpus p0 = []
    · rw [if_pos hre]
      by_cases hp : f ∈ p0
      · exact hp
      · exfalso
        have : f ∈ workList corpus p0 := by
          rw [workList, List.mem_filter]
          refine ⟨hf, by simpa using fun hcon => hp (by simpa using hcon)⟩
        rw [hre] at this
        exact absurd this (by simp)
    · rw [if_neg hre]
      show f ∈ (runFiles oracle (workList corpus p0) ⟨p0, r0, []⟩).processedFiles
      by_cases hp : f ∈ p0
      · exact runFiles_processed_mono oracle _ _ f hp
      · refine runFiles_processes_all oracle _ _ f ?_ hsucc
        rw [workList, List.mem_filter]
        refine ⟨hf, by simpa using fun hcon => hp (by simpa using hcon)⟩
  have hempty : workList corpus (runDriver oracle corpus p0 r0).processedFiles = [] := by
    rw [workList, List.filter_eq_nil_iff]
    intro f hf
    simp only [Bool.not_eq_true', Bool.not_eq_false]
    exact List.elem_eq_true_of_mem (hcover f hf)
  refine ⟨hempty, ?_⟩
  rw [runDriver, if_pos hempty]

/-- Witness for C3 with an all-successful oracle on a one-file corpus. -/
theorem C3_idempotent_resume_witness :
    workList ["a".data]
        (runDriver (fun _ => some Json.null) ["a".data] [] []).processedFiles = [] ∧
    runDriver (fun _ => some Json.null) ["a".data]
        (runDriver (fun _ => some Json.null) ["a".data] [] []).processedFiles
        (runDriver (fun _ => some Json.null) ["a".data] [] []).results =
      ⟨(runDriver (fun _ => some Json.null) ["a".data] [] []).processedFiles,
       (runDriver (fun _ => some Json.null) ["a".data] [] []).results, []⟩ :=
  C3_idempotent_resume.2 (fun _ => some Json.null) ["a".data] [] []
    (fun _ _ => rfl)

/-- C3 counterexample: a first run whose single file FAILS completes, but
the file is absent from the saved ProgressLog, so re-running with the
same artifacts and the unchanged Corpus has a work list of length 1 — it
processes one file, not zero, refuting the claim as stated. -/
theorem C3_counterexample :
    (workList ["a".data]
      (runDriver (fun _ => none) ["a".data] [] []).processedFiles).length = 1 := by
  decide

/-- After any run of the per-file loop, the results sequence is pairwise
matched with ProgressLog (entry i's fileName is the basename of progress
entry i), and every save snapshot taken along the way is matched too. -/
theorem runFiles_paired (oracle : List Char → Option Json) :
    ∀ (fs : List (List Char)) (st : DriverState),
      st.results.map ResultEntry.fileName = st.processedFiles.map basename →
      (∀ sv ∈ st.saves, sv.2.map ResultEntry.fileName = sv.1.map basename) →
      (runFiles oracle fs st).results.map ResultEntry.fileName =
        (runFiles oracle fs st).processedFiles.map basename ∧
      ∀ sv ∈ (runFiles oracle fs st).saves,
        sv.2.map ResultEntry.fileName = sv.1.map basename := by
  intro fs
  induction fs with
  | nil => intro st h1 h2; exact ⟨h1, h2⟩
  | cons g fs ih =>
    intro st h1 h2
    rcases hg : oracle g with _ | ana
    · rw [runFiles_cons_none oracle g fs st hg]
      exact ih st h1 h2
    · rw [runFiles_cons_some oracle g ana fs st hg]
      have hp1 : (appendProgress (appendResult st g ana) g).results.map ResultEntry.fileName =
          (appendProgress (appendResult st g ana) g).processedFiles.map basename := by
        show (st.results ++ [ResultEntry.mk (basename g) ana]).map ResultEntry.fileName =
          (st.processedFiles ++ [g]).map basename
        simp [h1]
      by_cases hsave :
        (appendProgress (appendResult st g ana) g).processedFiles.length % 10 = 0
      · rw [if_pos hsave]
        refine ih _ (by rw [doSave_results, doSave_processed]; exact hp1) ?_
        intro sv hsv
        have hds : (doSave (appendProgress (appendResult st g ana) g)).saves =
            st.saves ++ [((appendProgress (appendResult st g ana) g).processedFiles,
              (appendProgress (appendResult st g ana) g).results)] := rfl
        rw [hds] at hsv
        rcases List.mem_append.mp hsv with hin | hnew
        · exact h2 sv hin
        · rw [show sv = ((appendProgress (appendResult st g ana) g).processedFiles,
            (appendProgress (appendResult st g ana) g).results) from by simpa using hnew]
          exact hp1
      · rw [if_neg hsave]
        exact ih _ hp1 h2

/-- C4 (amended): at every durable save and at run end a file identifier
appears in ProgressLog iff (at the matching position) a corresponding
ResultEntry exists in results; on a VALID extraction the Driver appends
the ResultEntry to results and THEN the identifier to ProgressLog
(results first — the order the claim states is reversed); the two
structures are always persisted together in the same save operation,
never independently; and on a FAILED extraction neither structure is
mutated. -/
theorem C4_progress_results_paired :
    (∀ (oracle : List Char → Option Json) (fs : List (List Char)) (st : DriverState),
      st.results.map ResultEntry.fileName = st.processedFiles.map basename →
      (∀ sv ∈ st.saves, sv.2.map ResultEntry.fileName = sv.1.map basename) →
      (runFiles oracle fs st).results.map ResultEntry.fileName =
        (runFiles oracle fs st).processedFiles.map basename ∧
      ∀ sv ∈ (runFiles oracle fs st).saves,
        sv.2.map ResultEntry.fileName = sv.1.map basename) ∧
    (∀ (oracle : List Char → Option Json) (corpus p0 : List (List Char))
      (r0 : List ResultEntry),
      r0.map ResultEntry.fileName = p0.map basename →
      (runDriver oracle corpus p0 r0).results.map ResultEntry.fileName =
        (runDriver oracle corpus p0 r0).processedFiles.map basename ∧
      ∀ sv ∈ (runDriver oracle corpus p0 r0).saves,
        sv.2.map ResultEntry.fileName = sv.1.map basename) ∧
    (∀ (oracle : List Char → Option Json) (f : List Char) (fs : List (List Char))
      (st : DriverState), oracle f = none →
      runFiles oracle (f :: fs) st = runFiles oracle fs st) ∧
    (∀ (st : DriverState) (f : List Char) (ana : Json),
      (appendResult st f ana).processedFiles = st.processedFiles ∧
      (appendResult st f ana).results = st.results ++ [⟨basename f, ana⟩] ∧
      (appendResult st f ana).saves = st.saves ∧
      appendProgress (appendResult st f ana) f =
        ⟨st.processedFiles ++ [f], st.results ++ [⟨basename f, ana⟩], st.saves⟩) ∧
    (∀ st : DriverState, (doSave st).saves = st.saves ++ [(st.processedFiles, st.results)] ∧
      (doSave st).processedFiles = st.processedFiles ∧ (doSave st).results = st.results) := by
  refine ⟨?_, ?_, ?_, ?_, ?_⟩
  · exact runFiles_paired
  case refine_3 => exact runFiles_cons_none
  case refine_4 => intro st f ana; exact ⟨rfl, rfl, rfl, rfl⟩
  case refine_5 => intro st; exact ⟨rfl, rfl, rfl⟩
  intro oracle corpus p0 r0 h
  rw [runDriver]
  by_cases hre : workList corpus p0 = []
  · rw [if_pos hre]
    exact ⟨h, by intro sv hsv; exact absurd hsv (by simp)⟩
  · rw [if_neg hre]
    have hrun := runFiles_paired oracle (workList corpus p0) ⟨p0, r0, []⟩ h
      (by intro sv hsv; exact absurd hsv (by simp))
    refine ⟨by rw [doSave_results, doSave_processed]; exact hrun.1, ?_⟩
    intro sv hsv
    have hds : (doSave (runFiles oracle (workList corpus p0) ⟨p0, r0, []⟩)).saves =
        (runFiles oracle (workList corpus p0) ⟨p0, r0, []⟩).saves ++
          [((runFiles oracle (workList corpus p0) ⟨p0, r0, []⟩).processedFiles,
            (runFiles oracle (workList corpus p0) ⟨p0, r0, []⟩).results)] := rfl
    rw [hds] at hsv
    rcases List.mem_append.mp hsv with hin | hnew
    · exact hrun.2 sv hin
    · rw [show sv = ((runFiles oracle (workList corpus p0) ⟨p0, r0, []⟩).processedFiles,
        (runFiles oracle (workList corpus p0) ⟨p0, r0, []⟩).results) from by simpa using hnew]
      exact hrun.1

/-- Witness for C4 on a concrete run. -/
theorem C4_progress_results_paired_witness :
    (runDriver (fun _ => some Json.null) ["a".data] [] []).results.map
        ResultEntry.fileName =
      (runDriver (fun _ => some Json.null) ["a".data] [] []).processedFiles.map basename :=
  (C4_progress_results_paired.2.1 (fun _ => some Json.null) ["a".data] [] [] rfl).1

/-- C4 counterexample: the success branch's FIRST mutation (main.py line
104, modelled by `appendResult`) extends the results sequence while
ProgressLog is still untouched; the identifier joins ProgressLog only
with the SECOND statement (line 105, `appendProgress`).  So the claim's
order — identifier appended to ProgressLog first, then the ResultEntry —
is false at this concrete step. -/
theorem C4_counterexample :
    (appendResult ⟨[], [], []⟩ "a".data Json.null).processedFiles = [] ∧
    (appendResult ⟨[], [], []⟩ "a".data Json.null).results.length = 1 :=
  ⟨rfl, rfl⟩

/-- A JSON string body free of quotes, backslashes and control
characters decodes to itself. -/
theorem parseStringBody_clean :
    ∀ v : List Char, (∀ c ∈ v, ¬ c = '\"' ∧ ¬ c = '\\' ∧ 32 ≤ c.toNat) →
      ∀ r : List Char, parseStringBody (v ++ '\"' :: r) = some (v, r) := by
  intro v
  induction v with
  | nil =>
    intro _ r
    rw [List.nil_append]
    unfold parseStringBody
    rw [if_pos rfl]
  | cons c v ih =>
    intro h r
    have hc := h c (by simp)
    rw [List.cons_append]
    unfold parseStringBody
    rw [if_neg hc.1, if_neg hc.2.1, if_neg (by have := hc.2.2; omega)]
    rw [ih (fun x hx => h x (by simp [hx])) r]
    rfl

/-- The decoder on the quoted clean string value (one fuel level). -/
theorem parseP_strfield (n : Nat) (v : List Char)
    (hv : ∀ c ∈ v, ¬ c = '\"' ∧ ¬ c = '\\' ∧ 32 ≤ c.toNat) :
    parseP (n + 1) PMode.pvalue ('\"' :: (v ++ ['\"', braceR])) =
      some (Json.str v, [braceR]) := by
  show (match parseStringBody (v ++ ['\"', braceR]) with
    | some (s, r) => some (Json.str s, r)
    | none => none) = some (Json.str v, [braceR])
  rw [show v ++ ['\"', braceR] = v ++ '\"' :: [braceR] from rfl,
    parseStringBody_clean v hv [braceR]]

/-- The decoder on the single member of the family object. -/
theorem parseP_members_step (n : Nat) (v : List Char)
    (hinner : parseP (n + 1) PMode.pvalue ('\"' :: (v ++ ['\"', braceR])) =
      some (Json.str v, [braceR])) :
    parseP (n + 2) (PMode.pmembers [])
      ('\"' :: (descKey ++ ['\"', ':', ' ', '\"'] ++ v ++ ['\"', braceR])) =
      some (Json.obj [(descKey, Json.str v)], []) := by
  show (match parseP (n + 1) PMode.pvalue ('\"' :: (v ++ ['\"', braceR])) with
    | none => none
    | some (vv, r3) =>
      match skipWs r3 with
      | d :: r4 =>
        if d = ',' then parseP (n + 1) (PMode.pmembers ([] ++ [(descKey, vv)])) (skipWs r4)
        else if d = braceR then some (Json.obj ([] ++ [(descKey, vv)]), r4)
        else none
      | [] => none) = some (Json.obj [(descKey, Json.str v)], [])
  rw [hinner]
  show (if braceR = ',' then
      parseP (n + 1) (PMode.pmembers ([] ++ [(descKey, Json.str v)])) (skipWs [])
    else if braceR = braceR then some (Json.obj ([] ++ [(descKey, Json.str v)]), [])
    else none) = some (Json.obj [(descKey, Json.str v)], [])
  rw [if_neg (by decide), if_pos rfl]
  rfl

/-- The decoder accepts every member of the family (with any fuel
margin). -/
theorem parseP_braceObj (n : Nat) (v : List Char)
    (hv : ∀ c ∈ v, ¬ c = '\"' ∧ ¬ c = '\\' ∧ 32 ≤ c.toNat) :
    parseP (n + 3) PMode.pvalue (braceObj v) =
      some (Json.obj [(descKey, Json.str v)], []) := by
  show parseP (n + 2) (PMode.pmembers [])
    ('\"' :: (descKey ++ ['\"', ':', ' ', '\"'] ++ v ++ ['\"', braceR])) =
    some (Json.obj [(descKey, Json.str v)], [])
  exact parseP_members_step n v (parseP_strfield n v hv)

/-- `json.loads` accepts every member of the family and decodes it to a
one-field object whose value is the verbatim string. -/
theorem jsonLoads_braceObj (v : List Char)
    (hv : ∀ c ∈ v, ¬ c = '\"' ∧ ¬ c = '\\' ∧ 32 ≤ c.toNat) :
    jsonLoads (braceObj v) = some (Json.obj [(descKey, Json.str v)]) := by
  have hdk : descKey.length = 11 := rfl
  have hlen : (braceObj v).length + 1 = v.length + 17 + 3 := by
    simp [braceObj, hdk]
    omega
  simp only [jsonLoads]
  rw [hlen, show skipWs (braceObj v) = braceObj v from rfl,
    parseP_braceObj (v.length + 17) v hv]
  rfl

/-- While the in-string flag is set, a run of characters free of quotes
and backslashes is consumed without touching depth or the flags. -/
theorem scan_instring :
    ∀ (v : List Char) (d : Int) (acc rest : List Char),
      (∀ c ∈ v, ¬ c = '\"' ∧ ¬ c = '\\') →
      scanGo d true false acc (v ++ rest) = scanGo d true false (v.reverse ++ acc) rest := by
  intro v
  induction v with
  | nil => intro d acc rest _; simp
  | cons c v ih =>
    intro d acc rest h
    have hc := h c (by simp)
    rw [List.cons_append]
    rw [scanGo]
    rw [if_neg (by simp), if_neg hc.2, if_neg hc.1, if_pos rfl]
    rw [ih d (c :: acc) rest (fun x hx => h x (by simp [hx]))]
    simp

/-- Closing a depth-1 object at an unescaped `\x7d` outside a string
returns the candidate when it parses. -/
theorem scanGo_close (acc rest : List Char)
    (h : jsonValid ((braceR :: acc).reverse) = true) :
    scanGo 1 false false acc (braceR :: rest) = some ((braceR :: acc).reverse) := by
  rw [scanGo]
  rw [if_neg (by simp), if_neg (by decide), if_neg (by decide), if_neg (by simp),
    if_neg (by decide), if_pos rfl, if_pos (by decide), if_pos h]

/-- The scan over a family member embedded before arbitrary trailing
text returns exactly the member. -/
theorem scan_braceObj (v s2 : List Char)
    (hv2 : ∀ c ∈ v, ¬ c = '\"' ∧ ¬ c = '\\')
    (hvalid : jsonValid (braceObj v) = true) :
    scanGo 0 false false [] (braceObj v ++ s2) = some (braceObj v) := by
  have step1 : scanGo 0 false false [] (braceObj v ++ s2) =
      scanGo 1 true false ((braceL :: '\"' :: (descKey ++ ['\"', ':', ' ', '\"'])).reverse)
        ((v ++ ['\"', braceR]) ++ s2) := rfl
  have hrev : (braceR :: '\"' ::
      (v.reverse ++ (braceL :: '\"' :: (descKey ++ ['\"', ':', ' ', '\"'])).reverse)).reverse =
      braceObj v := by
    simp [braceObj, List.reverse_cons, List.reverse_append, List.append_assoc]
  rw [step1, List.append_assoc,
    scan_instring v 1 ((braceL :: '\"' :: (descKey ++ ['\"', ':', ' ', '\"'])).reverse)
      (['\"', braceR] ++ s2) hv2]
  have hq : scanGo 1 true false
      (v.reverse ++ (braceL :: '\"' :: (descKey ++ ['\"', ':', ' ', '\"'])).reverse)
      (['\"', braceR] ++ s2) =
      scanGo 1 false false
        ('\"' :: (v.reverse ++ (braceL :: '\"' :: (descKey ++ ['\"', ':', ' ', '\"'])).reverse))
        (braceR :: s2) := rfl
  rw [hq, scanGo_close _ _ (by rw [hrev]; exact hvalid), hrev]

/-- Right-stripping past a `\x7d` only strips inside the trailing part. -/
theorem pyRStrip_brace : ∀ A s : List Char,
    pyRStrip (A ++ braceR :: s) = A ++ braceR :: pyRStrip s := by
  intro A s
  induction A with
  | nil =>
    rw [List.nil_append, List.nil_append]
    simp only [pyRStrip]
    rw [if_neg (by intro hcon; exact absurd hcon.2 (by decide))]
  | cons a A ih =>
    rw [List.cons_append]
    simp only [pyRStrip]
    show (if pyRStrip (A ++ braceR :: s) = [] ∧ isPySpace a = true then []
      else a :: pyRStrip (A ++ braceR :: s)) = a :: (A ++ braceR :: pyRStrip s)
    rw [ih]
    rw [if_neg (by intro hcon; exact absurd hcon.1 (by simp))]

/-- The locator on prose ++ family object ++ trailing text returns
exactly the embedded object. -/
theorem extract_braceObj (p v s : List Char)
    (hfence : hasSeq fenceTok (p ++ braceObj v ++ s) = false)
    (hp : ∀ c ∈ p, ¬ c = braceL ∧ ¬ c = '\"' ∧ ¬ c = '\\')
    (hv : ∀ c ∈ v, ¬ c = '\"' ∧ ¬ c = '\\' ∧ 32 ≤ c.toNat) :
    extractJsonObject (p ++ braceObj v ++ s) = some (braceObj v) := by
  have hvalid : jsonValid (braceObj v) = true := by
    rw [jsonValid, jsonLoads_braceObj v hv]
    rfl
  have hmd : mdStrip (p ++ braceObj v ++ s) = pyStrip (p ++ braceObj v ++ s) :=
    mdStrip_eq_pyStrip_of_no_fence _ hfence
  have hobj : ∀ z : List Char, braceObj v ++ z =
      (braceL :: '\"' :: (descKey ++ ['\"', ':', ' ', '\"'] ++ v ++ ['\"'])) ++
        braceR :: z := by
    intro z
    simp [braceObj, List.append_assoc]
  have ha1 : (p ++ (braceObj v ++ s)).dropWhile isPySpace =
      p.dropWhile isPySpace ++ (braceObj v ++ s) := by
    rw [dropWhile_append_or]
    by_cases hpe : p.dropWhile isPySpace = []
    · rw [if_pos hpe, hpe, List.nil_append]
      rfl
    · rw [if_neg hpe]
  have ha2 : pyStrip (p ++ braceObj v ++ s) =
      (p.dropWhile isPySpace ++
        (braceL :: '\"' :: (descKey ++ ['\"', ':', ' ', '\"'] ++ v ++ ['\"']))) ++
        braceR :: pyRStrip s := by
    rw [pyStrip, List.append_assoc, ha1, hobj s, ← List.append_assoc, pyRStrip_brace]
  have hrem : (pyStrip (p ++ braceObj v ++ s)).dropWhile (fun c => !(c == braceL)) =
      braceObj v ++ pyRStrip s := by
    rw [ha2, List.append_assoc, dropWhile_append_or]
    rw [if_pos (dropWhile_nil_of_all _ (by
      intro c hc
      have hcp : c ∈ p := (List.dropWhile_sublist _).subset hc
      simp [(hp c hcp).1]))]
    have hstop : ((braceL :: '\"' :: (descKey ++ ['\"', ':', ' ', '\"'] ++ v ++ ['\"'])) ++
        braceR :: pyRStrip s).dropWhile (fun c => !(c == braceL)) =
        (braceL :: '\"' :: (descKey ++ ['\"', ':', ' ', '\"'] ++ v ++ ['\"'])) ++
        braceR :: pyRStrip s := rfl
    rw [hstop, ← hobj (pyRStrip s)]
  have htne : ¬pyStrip (p ++ braceObj v ++ s) = [] := by
    rw [ha2]
    simp
  have hremne : ¬braceObj v ++ pyRStrip s = [] := by
    simp [braceObj]
  simp only [extractJsonObject]
  rw [hmd, hrem, if_neg htne, if_neg hremne,
    scan_braceObj v (pyRStrip s) (fun c hc => ⟨(hv c hc).1, (hv c hc).2.1⟩) hvalid]

/-- C1: the locator's scan is string-aware — the escape flag suppresses
interpretation of the character after a backslash, a backslash sets the
escape flag, the in-string flag toggles exactly on an unescaped quote,
and while in a string the brace characters leave the depth counter (and
everything else) untouched; consequently, for the whole family of texts
`prose ++ \x7b"description": "<value-with-braces>"\x7d ++ trailing`
(prose free of braces/quotes/backslashes, value free of quotes and
backslashes, no markdown fence anywhere), the locator returns exactly
the embedded object and strict decoding yields its value verbatim. -/
theorem C1_string_aware_locator :
    (∀ (d : Int) (b : Bool) (acc : List Char) (c : Char) (rest : List Char),
      scanGo d b true acc (c :: rest) = scanGo d b false (c :: acc) rest) ∧
    (∀ (d : Int) (b : Bool) (acc rest : List Char),
      scanGo d b false acc ('\\' :: rest) = scanGo d b true ('\\' :: acc) rest) ∧
    (∀ (d : Int) (b : Bool) (acc rest : List Char),
      scanGo d b false acc ('\"' :: rest) = scanGo d (!b) false ('\"' :: acc) rest) ∧
    (∀ (d : Int) (acc rest : List Char) (c : Char), c = braceL ∨ c = braceR →
      scanGo d true false acc (c :: rest) = scanGo d true false (c :: acc) rest) ∧
    (∀ p v s : List Char,
      hasSeq fenceTok (p ++ braceObj v ++ s) = false →
      (∀ c ∈ p, ¬ c = braceL ∧ ¬ c = '\"' ∧ ¬ c = '\\') →
      (∀ c ∈ v, ¬ c = '\"' ∧ ¬ c = '\\' ∧ 32 ≤ c.toNat) →
      extractJsonObject (p ++ braceObj v ++ s) = some (braceObj v) ∧
      jsonLoads (braceObj v) = some (Json.obj [(descKey, Json.str v)])) := by
  refine ⟨fun d b acc c rest => rfl, fun d b acc rest => rfl, fun d b acc rest => rfl,
    ?_, ?_⟩
  · intro d acc rest c hc
    rcases hc with hc | hc <;> subst hc <;> rfl
  · intro p v s hfence hp hv
    exact ⟨extract_braceObj p v s hfence hp hv, jsonLoads_braceObj v hv⟩

/-- Witness for C1 on the spec's own example value `a \x7bb\x7d c`
surrounded by prose. -/
theorem C1_string_aware_locator_witness :
    extractJsonObject ("Sure: ".data ++ braceObj "a \x7bb\x7d c".data ++ " end.".data) =
      some (braceObj "a \x7bb\x7d c".data) ∧
    jsonLoads (braceObj "a \x7bb\x7d c".data) =
      some (Json.obj [(descKey, Json.str "a \x7bb\x7d c".data)]) :=
  C1_string_aware_locator.2.2.2.2 "Sure: ".data "a \x7bb\x7d c".data " end.".data
    (by decide) (by decide) (by decide)
